import Mathlib

/-!
Shallow embedding of `src/tsclient.ts` (a TypeScript compilation client).

The client gathers `<script>` elements from the host document, materialises
possibly-remote sources through XMLHttpRequests joined by a manual countdown
latch (`waitingXHRsRef = {n, called}`), POSTs the resulting program to a
compile server, and injects returned artifacts back into the document.

DOM and network are external collaborators: a script element is modelled by
the fields the code reads (`getAttribute("src")`, the resolved `.src`
property, `innerHTML`), a fetch completion by its response text plus a
success flag (the code installs only an `onload` handler, which fires for
any completed request and never inspects the status), and the HTML
`querySelector("pre")` diagnostic extraction by an explicit function
argument `extractPre`.  Side effects on the host page are recorded as an
ordered event list.  JS string indices are modelled over `String.data`
(code points); `n` is an `Int` like a JS number used as a counter.
-/

/-- `TSFile` interface: one named script. -/
structure TSFile where
  name : String
  content : String
deriving DecidableEq, Repr

/-- `TSCompilerConfiguration` interface / `Compiler` constructor fields. -/
structure TSCompilerConfiguration where
  server : String
  tsScriptType : String
  tsconfigType : String
  outputJsType : String
  outputOtherType : String
deriving DecidableEq, Repr

/-- A parsed response envelope, `TSOutput & TSError` as produced by
`JSON.parse`.  `error`/`success` model JS truthiness of possibly absent
fields (absent ↦ `false`); `result := none` models an absent `result`
field (which `createContextualFragment` coerces to the text
`"undefined"`); `reason` and `files` default likewise. -/
structure RawResponse where
  error : Bool
  reason : String
  success : Bool
  result : Option String
  files : List TSFile
deriving DecidableEq, Repr

/-- A `<script>` element as read by the client: `srcAttr` is
`getAttribute("src")` (`none` when the attribute is absent), `srcProp` is
the resolved `.src` property (the empty string when the attribute is
absent), `innerHTML` its inline text. -/
structure ScriptElem where
  srcAttr : Option String
  srcProp : String
  innerHTML : String
deriving DecidableEq, Repr

/-- One opened-but-not-yet-sent XMLHttpRequest queued in `xhrs`, together
with the `name` its `onload` closure captured. -/
structure PendingFetch where
  name : String
  loc : String
deriving DecidableEq, Repr

/-- The transport-layer outcome of one completed fetch: a success flag and
the `responseText`.  The code installs only `onload`, which fires for any
completed request (error statuses included) and reads `responseText` only. -/
structure FetchResult where
  ok : Bool
  responseText : String
deriving DecidableEq, Repr

/-- The mutable coordination state of one `readScripts` call:
`files` is the shared result list, `n`/`called` are the two fields of
`waitingXHRsRef`, and `calls` records each invocation of the completion
callback together with the program it was passed. -/
structure JoinState where
  files : List TSFile
  n : Int
  called : Bool
  calls : List (List TSFile)
deriving DecidableEq, Repr

/-- Observable events of the fan-out/join phase, in program order. -/
inductive JoinEvent where
  | pushInline (name : String)
  | increment (name loc : String)
  | send (loc : String)
  | callbackFire (prog : List TSFile)
deriving DecidableEq, Repr

/-- Recognises an `increment` event. -/
def JoinEvent.isIncrement : JoinEvent → Bool
  | .increment _ _ => true
  | _ => false

/-- Recognises a `send` event. -/
def JoinEvent.isSend : JoinEvent → Bool
  | .send _ => true
  | _ => false

/-- The `name` carried by a fragment-producing event, if any. -/
def JoinEvent.eventName : JoinEvent → Option String
  | .pushInline n => some n
  | .increment n _ => some n
  | _ => none

/-- Host-page side effects of the response-handling pipeline, in order. -/
inductive HostEvent where
  | setErrorEv (msg : String)
  | hideSpinnerEv
  | renderDiagnostic (inner : String)
  | setStatusHidden
  | injectScript (scriptType content : String)
deriving DecidableEq, Repr

/-! ## JS string primitives used by the source -/

/-- Helper for `String.prototype.lastIndexOf`: the greatest position
`m ≤ k` at which `pat` occurs in `s`, searching downward from `k`. -/
def lastIndexOfAux (s pat : List Char) : Nat → Option Nat
  | 0 => if pat.isPrefixOf s then some 0 else none
  | k + 1 =>
    if pat.isPrefixOf (s.drop (k + 1)) then some (k + 1) else lastIndexOfAux s pat k

/-- JS `s.lastIndexOf(pat)`: the greatest index at which `pat` occurs in
`s`, or `-1` when it does not occur. -/
def lastIndexOfList (s pat : List Char) : Int :=
  match lastIndexOfAux s pat s.length with
  | none => -1
  | some m => (m : Int)

/-- JS `s.lastIndexOf(pat)` on strings. -/
def lastIndexOfStr (s pat : String) : Int :=
  lastIndexOfList s.data pat.data

/-- `name.substring(name.lastIndexOf("/"))` from `readScripts`:
JS `substring` clamps a negative start index to `0`, which `Int.toNat`
reproduces. -/
def substringFromLastSlash (s : String) : String :=
  String.mk (s.data.drop (lastIndexOfStr s "/").toNat)

/-- The name computation of the `readScripts` loop for source script
number `scriptNumber`: the substring of the resolved `src` from its last
`/`, or the placeholder `script-<n>.ts` when that substring is empty. -/
def fragmentName (srcProp : String) (scriptNumber : Nat) : String :=
  let name := substringFromLastSlash srcProp
  if name = "" then "script-" ++ toString scriptNumber ++ ".ts" else name

/-- The specification's notion of "ends in `.js`", used to compare with
the source's `lastIndexOf`-based test. -/
def endsWithDotJs (s : String) : Prop :=
  s.data.drop (s.data.length - 3) = ['.', 'j', 's']

instance (s : String) : Decidable (endsWithDotJs s) := by
  unfold endsWithDotJs; infer_instance

/-! ## The fan-out/join (`readScript` / `readScripts`) -/

/-- Appends the current `files` list to `calls`: the body of
`callback({files: files})`. -/
def fire (st : JoinState) : JoinState :=
  { st with calls := st.calls ++ [st.files] }

/-- `Compiler.readScript`: inline scripts are pushed immediately; remote
ones increment `waitingXHRsRef.n` and queue a pending fetch whose `onload`
closure captured `name` (the fetch itself is modelled by `onloadOf`). -/
def readScript (st : JoinState) (ps : List PendingFetch) (name : String)
    (script : ScriptElem) : JoinState × List PendingFetch × List JoinEvent :=
  match script.srcAttr with
  | none =>
    ({ st with files := st.files ++ [⟨name, script.innerHTML⟩] }, ps,
      [JoinEvent.pushInline name])
  | some src =>
    ({ st with n := st.n + 1 }, ps ++ [⟨name, src⟩],
      [JoinEvent.increment name src])

/-- The `onload` handler a remote `readScript` installs on its XHR, run at
fetch completion: push the fragment, decrement `n`, and fire the callback
when `n` reached zero and `called` is still false. -/
def onloadOf (st : JoinState) (name : String) (r : FetchResult) : JoinState :=
  let st1 := { st with files := st.files ++ [⟨name, r.responseText⟩], n := st.n - 1 }
  if st1.n = 0 ∧ st1.called = false then fire st1 else st1

/-- The `for (let i = 0; ...)` enumeration loop of `readScripts`, with
`k` the running `scriptNumber`. -/
def enumSources : List ScriptElem → Nat → JoinState → List PendingFetch →
    List JoinEvent → JoinState × List PendingFetch × List JoinEvent
  | [], _, st, ps, evs => (st, ps, evs)
  | s :: rest, k, st, ps, evs =>
    let r := readScript st ps (fragmentName s.srcProp k) s
    enumSources rest (k + 1) r.1 r.2.1 (evs ++ r.2.2)

/-- The enumeration phase of `readScripts`: all source scripts, then the
configuration script (named `tsconfig.json`) when present. -/
def enumAll (scripts : List ScriptElem) (config : Option ScriptElem) :
    JoinState × List PendingFetch × List JoinEvent :=
  let r := enumSources scripts 0 ⟨[], 0, false, []⟩ [] []
  match config with
  | none => r
  | some c =>
    let r2 := readScript r.1 r.2.1 "tsconfig.json" c
    (r2.1, r2.2.1, r.2.2 ++ r2.2.2)

/-- The post-dispatch check of `readScripts`:
`if (waitingXHRsRef.n === 0 && !waitingXHRsRef.called) callback(...)`. -/
def dispatchCheck (st : JoinState) : JoinState × List JoinEvent :=
  if st.n = 0 ∧ st.called = false then (fire st, [JoinEvent.callbackFire st.files])
  else (st, [])

/-- The whole synchronous pass of `Compiler.readScripts`: enumeration, the
`xhr.send()` dispatch loop (which only emits transport requests), and the
final zero-outstanding check. -/
def readScriptsRun (scripts : List ScriptElem) (config : Option ScriptElem) :
    JoinState × List PendingFetch × List JoinEvent :=
  let r := enumAll scripts config
  let sendEvs := r.2.1.map (fun p => JoinEvent.send p.loc)
  let d := dispatchCheck r.1
  (d.1, r.2.1, r.2.2 ++ sendEvs ++ d.2)

/-- A complete execution of one aggregation attempt: the synchronous
`readScripts` pass followed by the serialized `onload` callbacks of the
completed fetches, delivered in the order given by `completions`
(each pair: the captured name and the transport result). -/
def runJoin (scripts : List ScriptElem) (config : Option ScriptElem)
    (completions : List (String × FetchResult)) : JoinState :=
  completions.foldl (fun s c => onloadOf s c.1 c.2) (readScriptsRun scripts config).1

/-- Classifies a script element as remote (`src` attribute present). -/
def isRemote (s : ScriptElem) : Bool :=
  s.srcAttr.isSome

/-- All fragment locations of one enumeration: the source scripts followed
by the configuration script when present. -/
def allFragments (scripts : List ScriptElem) (config : Option ScriptElem) :
    List ScriptElem :=
  scripts ++ config.toList

/-- R: the number of remote fragments (configuration included). -/
def remoteCount (scripts : List ScriptElem) (config : Option ScriptElem) : Nat :=
  (allFragments scripts config).countP (fun s => isRemote s)

/-- L: the number of inline fragments (configuration included). -/
def inlineCount (scripts : List ScriptElem) (config : Option ScriptElem) : Nat :=
  (allFragments scripts config).countP (fun s => !isRemote s)

/-- The event a source script with index `k` contributes to the
enumeration trace. -/
def scriptEvent (k : Nat) (s : ScriptElem) : JoinEvent :=
  match s.srcAttr with
  | none => JoinEvent.pushInline (fragmentName s.srcProp k)
  | some src => JoinEvent.increment (fragmentName s.srcProp k) src

/-! ## The response pipeline (`compile` handler, `showOutput`, `addScript`) -/

/-- The argument `createContextualFragment` receives: an absent `result`
field is the JS value `undefined`, coerced to the text `"undefined"`. -/
def resultText (o : RawResponse) : String :=
  o.result.getD "undefined"

/-- `Compiler.addScript`'s type choice: the source tests
`file.name.lastIndexOf(".js") === file.name.length - 3`. -/
def addScriptType (cfg : TSCompilerConfiguration) (file : TSFile) : String :=
  if lastIndexOfStr file.name ".js" = (file.name.data.length : Int) - 3 then
    cfg.outputJsType
  else cfg.outputOtherType

/-- `Compiler.showOutput`.  `extractPre` models
`createRange().createContextualFragment(·).querySelector("pre")`; when it
yields nothing the non-null assertion leaves `inner = null` and
`div.appendChild(inner)` throws, modelled as `Except.error` (no host event
of the modelled kinds happens before the throw). -/
def showOutput (cfg : TSCompilerConfiguration) (extractPre : String → Option String)
    (output : RawResponse) : Except Unit (List HostEvent) :=
  match extractPre (resultText output) with
  | none => Except.error ()
  | some inner =>
    if output.success = false then
      Except.ok [HostEvent.renderDiagnostic inner,
        HostEvent.setErrorEv "Compilation failed.", HostEvent.hideSpinnerEv]
    else
      Except.ok ([HostEvent.renderDiagnostic inner, HostEvent.setStatusHidden,
        HostEvent.hideSpinnerEv] ++
        output.files.map (fun f => HostEvent.injectScript (addScriptType cfg f) f.content))

/-- The `xhr.onload` handler of `Compiler.compile`: parse the body
(`parsed = none` models a `JSON.parse` throw), report a server fault when
`output.error` is truthy, then run `showOutput`; any exception lands in
the shared `catch`, which reports the generic message. -/
def onloadHandler (cfg : TSCompilerConfiguration) (extractPre : String → Option String)
    (parsed : Option RawResponse) : List HostEvent :=
  match parsed with
  | none => [HostEvent.setErrorEv "A server error occurred.", HostEvent.hideSpinnerEv]
  | some output =>
    let errEvs :=
      if output.error then
        [HostEvent.setErrorEv ("A server error occurred: <br/> " ++ output.reason),
          HostEvent.hideSpinnerEv]
      else []
    match showOutput cfg extractPre output with
    | Except.ok evs => errEvs ++ evs
    | Except.error _ =>
      errEvs ++ [HostEvent.setErrorEv "A server error occurred.", HostEvent.hideSpinnerEv]

/-- The artifacts actually injected by a run of the pipeline, each as
(script type, content), in injection order. -/
def injectedOf (evs : List HostEvent) : List (String × String) :=
  evs.filterMap (fun e =>
    match e with
    | HostEvent.injectScript t c => some (t, c)
    | _ => none)

/-! ## Properties of the JS string primitives -/

/-- Value of `lastIndexOfList` when the search succeeds. -/
lemma lastIndexOfList_eq_of_some {s pat : List Char} {m : Nat}
    (h : lastIndexOfAux s pat s.length = some m) :
    lastIndexOfList s pat = (m : Int) := by
  unfold lastIndexOfList
  rw [h]

/-- Value of `lastIndexOfList` when the search fails. -/
lemma lastIndexOfList_eq_of_none {s pat : List Char}
    (h : lastIndexOfAux s pat s.length = none) :
    lastIndexOfList s pat = -1 := by
  unfold lastIndexOfList
  rw [h]

/-- A successful backward search returns a genuine, maximal match
position below the start index. -/
lemma lastIndexOfAux_some (s pat : List Char) :
    ∀ k m, lastIndexOfAux s pat k = some m →
      m ≤ k ∧ pat <+: s.drop m ∧ ∀ j, m < j → j ≤ k → ¬ pat <+: s.drop j := by
  intro k
  induction k with
  | zero =>
    intro m h
    simp only [lastIndexOfAux] at h
    split at h
    · next hp =>
      cases h
      exact ⟨Nat.le_refl _, List.isPrefixOf_iff_prefix.mp hp,
        fun j hj hj' => by omega⟩
    · exact absurd h (by simp)
  | succ k ih =>
    intro m h
    simp only [lastIndexOfAux] at h
    split at h
    · next hp =>
      cases h
      exact ⟨Nat.le_refl _, List.isPrefixOf_iff_prefix.mp hp,
        fun j hj hj' => by omega⟩
    · next hp =>
      obtain ⟨h1, h2, h3⟩ := ih m h
      refine ⟨Nat.le_succ_of_le h1, h2, ?_⟩
      intro j hj hj'
      rcases Nat.lt_or_ge j (k + 1) with hlt | hge
      · exact h3 j hj (Nat.lt_succ_iff.mp hlt)
      · have hjeq : j = k + 1 := by omega
        subst hjeq
        exact fun hc => hp (List.isPrefixOf_iff_prefix.mpr hc)

/-- A failed backward search means no match position at or below the
start index. -/
lemma lastIndexOfAux_none (s pat : List Char) :
    ∀ k, lastIndexOfAux s pat k = none → ∀ j, j ≤ k → ¬ pat <+: s.drop j := by
  intro k
  induction k with
  | zero =>
    intro h j hj
    simp only [lastIndexOfAux] at h
    split at h
    · exact absurd h (by simp)
    · next hp =>
      have hj0 : j = 0 := Nat.le_zero.mp hj
      subst hj0
      exact fun hc => hp (List.isPrefixOf_iff_prefix.mpr hc)
  | succ k ih =>
    intro h j hj
    simp only [lastIndexOfAux] at h
    split at h
    · exact absurd h (by simp)
    · next hp =>
      rcases Nat.lt_or_ge j (k + 1) with hlt | hge
      · exact ih h j (Nat.lt_succ_iff.mp hlt)
      · have hjeq : j = k + 1 := by omega
        subst hjeq
        exact fun hc => hp (List.isPrefixOf_iff_prefix.mpr hc)

/-- If some match exists at or below the start index, the backward search
finds a match at or above it. -/
lemma lastIndexOfAux_exists (s pat : List Char) {j k : Nat}
    (hj : pat <+: s.drop j) (hjk : j ≤ k) :
    ∃ m, lastIndexOfAux s pat k = some m ∧ j ≤ m := by
  cases h : lastIndexOfAux s pat k with
  | none => exact absurd hj (lastIndexOfAux_none s pat k h j hjk)
  | some m =>
    refine ⟨m, rfl, ?_⟩
    by_contra hlt
    push_neg at hlt
    exact (lastIndexOfAux_some s pat k m h).2.2 j hlt hjk hj

/-- The source's artifact test `lastIndexOf(".js") === length - 3` holds
exactly for names ending in `.js` — plus every two-character name, where
both sides of the comparison are `-1`. -/
lemma addScript_check_iff (name : String) :
    (lastIndexOfStr name ".js" = (name.data.length : Int) - 3) ↔
      (endsWithDotJs name ∨ name.data.length = 2) := by
  have hpat : (".js" : String).data = ['.', 'j', 's'] := rfl
  unfold lastIndexOfStr
  rw [hpat]
  constructor
  · intro h
    cases haux : lastIndexOfAux name.data ['.', 'j', 's'] name.data.length with
    | none =>
      rw [lastIndexOfList_eq_of_none haux] at h
      right
      omega
    | some m =>
      rw [lastIndexOfList_eq_of_some haux] at h
      obtain ⟨-, hpre, -⟩ := lastIndexOfAux_some _ _ _ m haux
      have hlen3 : name.data.length = m + 3 := by omega
      have hdl : (name.data.drop m).length = 3 := by
        rw [List.length_drop]; omega
      have heq : ['.', 'j', 's'] = name.data.drop m :=
        hpre.eq_of_length (by rw [hdl]; rfl)
      left
      unfold endsWithDotJs
      have hm : name.data.length - 3 = m := by omega
      rw [hm, ← heq]
  · intro h
    cases h with
    | inr h2 =>
      have hnone : lastIndexOfAux name.data ['.', 'j', 's'] name.data.length = none := by
        cases haux : lastIndexOfAux name.data ['.', 'j', 's'] name.data.length with
        | none => rfl
        | some m =>
          obtain ⟨-, hpre, -⟩ := lastIndexOfAux_some _ _ _ m haux
          have hle := hpre.length_le
          rw [List.length_drop] at hle
          simp only [List.length_cons, List.length_nil] at hle
          omega
      rw [lastIndexOfList_eq_of_none hnone]
      omega
    | inl h1 =>
      unfold endsWithDotJs at h1
      have hlen : 3 ≤ name.data.length := by
        by_contra hc
        push_neg at hc
        have h0 : name.data.length - 3 = 0 := by omega
        rw [h0, List.drop_zero] at h1
        have h3 : name.data.length = 3 := by rw [h1]; rfl
        omega
      have hpre : ['.', 'j', 's'] <+: name.data.drop (name.data.length - 3) := by
        rw [h1]
      obtain ⟨m, hm, hge⟩ := lastIndexOfAux_exists name.data _ hpre (Nat.sub_le _ _)
      obtain ⟨-, hpre', -⟩ := lastIndexOfAux_some _ _ _ m hm
      have hle := hpre'.length_le
      rw [List.length_drop] at hle
      simp only [List.length_cons, List.length_nil] at hle
      rw [lastIndexOfList_eq_of_some hm]
      omega

/-- A `/` at position `j` gives a single-character match there. -/
lemma slash_prefix_at {s : List Char} {j : Nat} (hj : j < s.length)
    (hc : s[j] = '/') : ['/'] <+: s.drop j := by
  have hdrop : s[j] :: s.drop (j + 1) = s.drop j := List.getElem_cons_drop s j hj
  rw [← hdrop, hc]
  exact ⟨s.drop (j + 1), rfl⟩

/-- When the location contains a `/`, `substring(lastIndexOf("/"))`
returns the suffix starting at the last `/` — slash included. -/
lemma substringFromLastSlash_decomp (s : String) (h : '/' ∈ s.data) :
    ∃ pre post, s.data = pre ++ '/' :: post ∧ '/' ∉ post ∧
      (substringFromLastSlash s).data = '/' :: post := by
  obtain ⟨j, hj, hcj⟩ := List.mem_iff_getElem.mp h
  have hpre := slash_prefix_at hj hcj
  obtain ⟨m, hm, hjm⟩ := lastIndexOfAux_exists s.data ['/'] hpre (Nat.le_of_lt hj)
  obtain ⟨hmk, hmpre, hmax⟩ := lastIndexOfAux_some s.data ['/'] s.data.length m hm
  have hmlt : m < s.data.length := by
    have hle := hmpre.length_le
    rw [List.length_drop] at hle
    simp only [List.length_cons, List.length_nil] at hle
    omega
  have hgm : s.data[m] = '/' := by
    obtain ⟨t, ht⟩ := hmpre
    rw [← List.getElem_cons_drop s.data m hmlt] at ht
    simp only [List.cons_append, List.nil_append, List.cons.injEq] at ht
    exact ht.1.symm
  refine ⟨s.data.take m, s.data.drop (m + 1), ?_, ?_, ?_⟩
  · conv_lhs => rw [← List.take_append_drop m s.data]
    rw [← List.getElem_cons_drop s.data m hmlt, hgm]
  · intro hmem
    obtain ⟨i, hi, hci⟩ := List.mem_iff_getElem.mp hmem
    rw [List.getElem_drop] at hci
    have hb : m + 1 + i < s.data.length := by
      rw [List.length_drop] at hi; omega
    have hpre2 := slash_prefix_at hb hci
    exact hmax (m + 1 + i) (by omega) (by omega) hpre2
  · unfold substringFromLastSlash lastIndexOfStr
    rw [show ("/" : String).data = ['/'] from rfl, lastIndexOfList_eq_of_some hm]
    show s.data.drop ((m : Int).toNat) = '/' :: s.data.drop (m + 1)
    rw [Int.toNat_natCast, ← List.getElem_cons_drop s.data m hmlt, hgm]

/-- Without a `/`, `lastIndexOf` is `-1`, JS `substring` clamps to `0`,
and the whole location comes back unchanged. -/
lemma substringFromLastSlash_no_slash (s : String) (h : '/' ∉ s.data) :
    substringFromLastSlash s = s := by
  have hnone : lastIndexOfAux s.data ['/'] s.data.length = none := by
    cases haux : lastIndexOfAux s.data ['/'] s.data.length with
    | none => rfl
    | some m =>
      obtain ⟨-, hmpre, -⟩ := lastIndexOfAux_some _ _ _ m haux
      obtain ⟨t, ht⟩ := hmpre
      have hmem : '/' ∈ s.data.drop m := by
        rw [← ht]; simp
      exact absurd (List.mem_of_mem_drop hmem) h
  unfold substringFromLastSlash lastIndexOfStr
  rw [show ("/" : String).data = ['/'] from rfl, lastIndexOfList_eq_of_none hnone]
  rfl

/-! ## Invariants of the enumeration phase -/

/-- `readScript` on an inline script. -/
lemma readScript_inline (st : JoinState) (ps : List PendingFetch) (name : String)
    (script : ScriptElem) (h : script.srcAttr = none) :
    readScript st ps name script =
      ({ st with files := st.files ++ [⟨name, script.innerHTML⟩] }, ps,
        [JoinEvent.pushInline name]) := by
  unfold readScript
  rw [h]

/-- `readScript` on a remote script. -/
lemma readScript_remote (st : JoinState) (ps : List PendingFetch) (name : String)
    (script : ScriptElem) (src : String) (h : script.srcAttr = some src) :
    readScript st ps name script =
      ({ st with n := st.n + 1 }, ps ++ [⟨name, src⟩],
        [JoinEvent.increment name src]) := by
  unfold readScript
  rw [h]

/-- One unfolding of the enumeration loop. -/
lemma enumSources_cons (s : ScriptElem) (rest : List ScriptElem) (k : Nat)
    (st : JoinState) (ps : List PendingFetch) (evs : List JoinEvent) :
    enumSources (s :: rest) k st ps evs =
      enumSources rest (k + 1) (readScript st ps (fragmentName s.srcProp k) s).1
        (readScript st ps (fragmentName s.srcProp k) s).2.1
        (evs ++ (readScript st ps (fragmentName s.srcProp k) s).2.2) := rfl

/-- Counting invariant of the enumeration loop: the loop adds one pending
fetch and one `n`-increment per remote script, one materialised file per
inline script, and never touches `called` or invokes the callback. -/
lemma enumSources_state (scripts : List ScriptElem) :
    ∀ (k : Nat) (st : JoinState) (ps : List PendingFetch) (evs : List JoinEvent),
      (enumSources scripts k st ps evs).1.n
          = st.n + (scripts.countP (fun s => isRemote s) : Int) ∧
      (enumSources scripts k st ps evs).1.files.length
          = st.files.length + scripts.countP (fun s => !isRemote s) ∧
      (enumSources scripts k st ps evs).1.called = st.called ∧
      (enumSources scripts k st ps evs).1.calls = st.calls ∧
      (enumSources scripts k st ps evs).2.1.length
          = ps.length + scripts.countP (fun s => isRemote s) := by
  induction scripts with
  | nil =>
    intro k st ps evs
    simp [enumSources]
  | cons s rest ih =>
    intro k st ps evs
    rw [enumSources_cons]
    cases hsrc : s.srcAttr with
    | none =>
      have hr : isRemote s = false := by simp [isRemote, hsrc]
      rw [readScript_inline st ps _ s hsrc]
      obtain ⟨h1, h2, h3, h4, h5⟩ := ih (k + 1)
        { st with files := st.files ++ [⟨fragmentName s.srcProp k, s.innerHTML⟩] } ps
        (evs ++ [JoinEvent.pushInline (fragmentName s.srcProp k)])
      refine ⟨?_, ?_, ?_, ?_, ?_⟩
      · rw [h1]; simp [List.countP_cons, hr]
      · rw [h2]; simp [List.countP_cons, hr]; omega
      · rw [h3]
      · rw [h4]
      · rw [h5]; simp [List.countP_cons, hr]
    | some src =>
      have hr : isRemote s = true := by simp [isRemote, hsrc]
      rw [readScript_remote st ps _ s src hsrc]
      obtain ⟨h1, h2, h3, h4, h5⟩ := ih (k + 1) { st with n := st.n + 1 }
        (ps ++ [⟨fragmentName s.srcProp k, src⟩])
        (evs ++ [JoinEvent.increment (fragmentName s.srcProp k) src])
      refine ⟨?_, ?_, ?_, ?_, ?_⟩
      · rw [h1]; simp [List.countP_cons, hr]; ring
      · rw [h2]; simp [List.countP_cons, hr]
      · rw [h3]
      · rw [h4]
      · rw [h5]; simp [List.countP_cons, hr]; omega

/-- Event trace of the enumeration loop: one `scriptEvent` per source
script, in order, carrying the name computed from the running
`scriptNumber`. -/
lemma enumSources_events (scripts : List ScriptElem) :
    ∀ (k : Nat) (st : JoinState) (ps : List PendingFetch) (evs : List JoinEvent),
      (enumSources scripts k st ps evs).2.2 =
        evs ++ (List.enumFrom k scripts).map (fun p => scriptEvent p.1 p.2) := by
  induction scripts with
  | nil =>
    intro k st ps evs
    simp [enumSources, List.enumFrom]
  | cons s rest ih =>
    intro k st ps evs
    rw [enumSources_cons]
    cases hsrc : s.srcAttr with
    | none =>
      rw [readScript_inline st ps _ s hsrc]
      rw [ih]
      simp [List.enumFrom, scriptEvent, hsrc]
    | some src =>
      rw [readScript_remote st ps _ s src hsrc]
      rw [ih]
      simp [List.enumFrom, scriptEvent, hsrc]

/-- State after the whole enumeration phase: `n` and the pending queue
both reflect the full remote count R, the file list holds the L inline
fragments, the latch is untouched and the callback has not run. -/
lemma enumAll_state (scripts : List ScriptElem) (config : Option ScriptElem) :
    (enumAll scripts config).1.n = (remoteCount scripts config : Int) ∧
    (enumAll scripts config).1.files.length = inlineCount scripts config ∧
    (enumAll scripts config).1.called = false ∧
    (enumAll scripts config).1.calls = [] ∧
    (enumAll scripts config).2.1.length = remoteCount scripts config := by
  obtain ⟨h1, h2, h3, h4, h5⟩ := enumSources_state scripts 0 ⟨[], 0, false, []⟩ [] []
  cases config with
  | none =>
    unfold enumAll remoteCount inlineCount allFragments
    simp only [Option.toList_none, List.append_nil]
    exact ⟨by rw [h1]; simp, by rw [h2]; simp, h3, h4, by rw [h5]; simp⟩
  | some c =>
    unfold enumAll remoteCount inlineCount allFragments
    simp only [Option.toList_some]
    cases hsrc : c.srcAttr with
    | none =>
      have hr : isRemote c = false := by simp [isRemote, hsrc]
      rw [readScript_inline _ _ _ c hsrc]
      refine ⟨?_, ?_, h3, h4, ?_⟩
      · rw [h1]
        simp [List.countP_append, List.countP_cons, hr]
      · simp only [List.length_append, List.length_cons, List.length_nil]
        rw [h2]
        simp [List.countP_append, List.countP_cons, hr]
      · rw [h5]
        simp [List.countP_append, List.countP_cons, hr]
    | some src =>
      have hr : isRemote c = true := by simp [isRemote, hsrc]
      rw [readScript_remote _ _ _ c src hsrc]
      refine ⟨?_, ?_, h3, h4, ?_⟩
      · rw [h1]
        simp [List.countP_append, List.countP_cons, hr]
      · rw [h2]
        simp [List.countP_append, List.countP_cons, hr]
      · simp only [List.length_append, List.length_cons, List.length_nil]
        rw [h5]
        simp [List.countP_append, List.countP_cons, hr]

/-- `enumAll` without a configuration script is just the loop. -/
lemma enumAll_none (scripts : List ScriptElem) :
    enumAll scripts none = enumSources scripts 0 ⟨[], 0, false, []⟩ [] [] := rfl

/-- `enumAll` with a configuration script: one more `readScript` call,
named `tsconfig.json`, after the loop. -/
lemma enumAll_some (scripts : List ScriptElem) (c : ScriptElem) :
    enumAll scripts (some c) =
      ((readScript (enumSources scripts 0 ⟨[], 0, false, []⟩ [] []).1
          (enumSources scripts 0 ⟨[], 0, false, []⟩ [] []).2.1 "tsconfig.json" c).1,
        (readScript (enumSources scripts 0 ⟨[], 0, false, []⟩ [] []).1
          (enumSources scripts 0 ⟨[], 0, false, []⟩ [] []).2.1 "tsconfig.json" c).2.1,
        (enumSources scripts 0 ⟨[], 0, false, []⟩ [] []).2.2 ++
          (readScript (enumSources scripts 0 ⟨[], 0, false, []⟩ [] []).1
            (enumSources scripts 0 ⟨[], 0, false, []⟩ [] []).2.1 "tsconfig.json" c).2.2) :=
  rfl

/-- The enumeration phase emits no `send` event: fetches are only opened
and queued there, never dispatched. -/
lemma enumAll_events_no_send (scripts : List ScriptElem) (config : Option ScriptElem) :
    ∀ e ∈ (enumAll scripts config).2.2, e.isSend = false := by
  have hbase : ∀ e ∈ (enumSources scripts 0 ⟨[], 0, false, []⟩ [] []).2.2,
      e.isSend = false := by
    rw [enumSources_events]
    intro e he
    simp only [List.nil_append, List.mem_map] at he
    obtain ⟨p, -, hp⟩ := he
    unfold scriptEvent at hp
    cases hsrc : p.2.srcAttr <;> rw [hsrc] at hp <;> rw [← hp] <;> rfl
  cases config with
  | none =>
    rw [enumAll_none]
    exact hbase
  | some c =>
    rw [enumAll_some]
    intro e he
    cases hsrc : c.srcAttr with
    | none =>
      rw [readScript_inline _ _ _ c hsrc] at he
      simp only [List.mem_append, List.mem_singleton] at he
      rcases he with he | he
      · exact hbase e he
      · rw [he]; rfl
    | some src =>
      rw [readScript_remote _ _ _ c src hsrc] at he
      simp only [List.mem_append, List.mem_singleton] at he
      rcases he with he | he
      · exact hbase e he
      · rw [he]; rfl

/-- The names the enumeration attaches to fragments, in discovery order:
each source script (inline or remote) is named by `fragmentName` at its
loop index, and the configuration fragment — when present — is always
named `tsconfig.json`, without advancing the source ordinal. -/
lemma enumAll_event_names (scripts : List ScriptElem) (config : Option ScriptElem) :
    (enumAll scripts config).2.2.filterMap JoinEvent.eventName =
      (List.enumFrom 0 scripts).map (fun p => fragmentName p.2.srcProp p.1) ++
        config.toList.map (fun _ => "tsconfig.json") := by
  have hgen : ∀ l : List (Nat × ScriptElem),
      l.filterMap (JoinEvent.eventName ∘ fun p => scriptEvent p.1 p.2) =
        l.map (fun p => fragmentName p.2.srcProp p.1) := by
    intro l
    induction l with
    | nil => rfl
    | cons p rest ih =>
      rw [List.filterMap_cons, List.map_cons, ← ih]
      cases hsrc : p.2.srcAttr <;>
        simp [scriptEvent, hsrc, JoinEvent.eventName, Function.comp]
  have hbase : (enumSources scripts 0 ⟨[], 0, false, []⟩ [] []).2.2.filterMap
      JoinEvent.eventName =
      (List.enumFrom 0 scripts).map (fun p => fragmentName p.2.srcProp p.1) := by
    rw [enumSources_events]
    simp only [List.nil_append, List.filterMap_map]
    exact hgen _
  cases config with
  | none =>
    rw [enumAll_none]
    simpa using hbase
  | some c =>
    rw [enumAll_some]
    cases hsrc : c.srcAttr with
    | none =>
      rw [readScript_inline _ _ _ c hsrc]
      simp only [List.filterMap_append, hbase, Option.toList_some, List.map_cons,
        List.map_nil]
      rfl
    | some src =>
      rw [readScript_remote _ _ _ c src hsrc]
      simp only [List.filterMap_append, hbase, Option.toList_some, List.map_cons,
        List.map_nil]
      rfl

/-! ## The join: completions drive the latch to zero -/

/-- Unfolded form of `readScriptsRun`. -/
lemma readScriptsRun_eq (scripts : List ScriptElem) (config : Option ScriptElem) :
    readScriptsRun scripts config =
      ((dispatchCheck (enumAll scripts config).1).1, (enumAll scripts config).2.1,
        (enumAll scripts config).2.2 ++
          (enumAll scripts config).2.1.map (fun p => JoinEvent.send p.loc) ++
          (dispatchCheck (enumAll scripts config).1).2) := rfl

/-- Folding the serialized `onload` callbacks over a state whose counter
equals the number of completions still to arrive: the callback fires on
the last decrement and only there, each completion appends one fragment,
and `called` is never written. -/
lemma foldJoin (cs : List (String × FetchResult)) :
    ∀ st : JoinState, st.called = false → st.calls = [] →
      st.n = (cs.length : Int) → cs ≠ [] →
      (cs.foldl (fun s c => onloadOf s c.1 c.2) st).calls
          = [(cs.foldl (fun s c => onloadOf s c.1 c.2) st).files] ∧
      (cs.foldl (fun s c => onloadOf s c.1 c.2) st).files.length
          = st.files.length + cs.length ∧
      (cs.foldl (fun s c => onloadOf s c.1 c.2) st).called = false := by
  induction cs with
  | nil => intro st _ _ _ hne; exact absurd rfl hne
  | cons c rest ih =>
    intro st hcalled hcalls hn hne
    rw [List.foldl_cons]
    by_cases hrest : rest = []
    · subst hrest
      have hn1 : st.n = 1 := by
        simp only [List.length_cons, List.length_nil] at hn
        omega
      have honload : onloadOf st c.1 c.2 = fire
          { st with files := st.files ++ [⟨c.1, c.2.responseText⟩], n := st.n - 1 } := by
        unfold onloadOf
        rw [if_pos ⟨by simp [hn1], by simp [hcalled]⟩]
      rw [List.foldl_nil, honload]
      unfold fire
      refine ⟨?_, ?_, ?_⟩
      · simp [hcalls]
      · simp
      · simp [hcalled]
    · have hlen : 0 < rest.length := List.length_pos.mpr hrest
      have honload : onloadOf st c.1 c.2 =
          { st with files := st.files ++ [⟨c.1, c.2.responseText⟩], n := st.n - 1 } := by
        unfold onloadOf
        rw [if_neg]
        intro hcontra
        have := hcontra.1
        simp only [List.length_cons] at hn
        simp only [this] at *
        omega
      rw [honload]
      obtain ⟨h1, h2, h3⟩ := ih
        { st with files := st.files ++ [⟨c.1, c.2.responseText⟩], n := st.n - 1 }
        (by simp [hcalled]) (by simp [hcalls])
        (by simp only [List.length_cons] at hn; simp; omega) hrest
      refine ⟨h1, ?_, h3⟩
      rw [h2]
      dsimp only
      simp only [List.length_append, List.length_cons, List.length_nil]
      omega

/-- End-to-end join property: when every dispatched fetch completes
(one completion per pending request), the completion callback runs
exactly once and receives all R + L fragments, and `called` still reads
`false`. -/
lemma runJoin_spec (scripts : List ScriptElem) (config : Option ScriptElem)
    (completions : List (String × FetchResult))
    (hlen : completions.length = (readScriptsRun scripts config).2.1.length) :
    (runJoin scripts config completions).calls
        = [(runJoin scripts config completions).files] ∧
    (runJoin scripts config completions).files.length
        = remoteCount scripts config + inlineCount scripts config ∧
    (runJoin scripts config completions).called = false := by
  obtain ⟨hn, hf, hcalled, hcalls, hps⟩ := enumAll_state scripts config
  have hlen' : completions.length = remoteCount scripts config := hlen.trans hps
  unfold runJoin
  rw [readScriptsRun_eq]
  dsimp only
  by_cases hR : remoteCount scripts config = 0
  · have hc0 : completions = [] := by
      apply List.eq_nil_of_length_eq_zero
      omega
    subst hc0
    rw [List.foldl_nil]
    have hfire : dispatchCheck (enumAll scripts config).1 =
        (fire (enumAll scripts config).1,
          [JoinEvent.callbackFire (enumAll scripts config).1.files]) := by
      unfold dispatchCheck
      rw [if_pos ⟨by rw [hn, hR]; rfl, hcalled⟩]
    rw [hfire]
    dsimp only
    unfold fire
    refine ⟨?_, ?_, ?_⟩
    · rw [hcalls]
      rfl
    · dsimp only
      rw [hf, hR]
      omega
    · dsimp only
      exact hcalled
  · have hnd : dispatchCheck (enumAll scripts config).1 =
        ((enumAll scripts config).1, []) := by
      unfold dispatchCheck
      rw [if_neg]
      intro hcontra
      rw [hn] at hcontra
      have h0 := hcontra.1
      have : remoteCount scripts config = 0 := by exact_mod_cast h0
      exact hR this
    rw [hnd]
    dsimp only
    have hne : completions ≠ [] := by
      intro h
      subst h
      simp only [List.length_nil] at hlen'
      exact hR hlen'.symm
    obtain ⟨h1, h2, h3⟩ := foldJoin completions (enumAll scripts config).1 hcalled hcalls
      (by rw [hn]; exact_mod_cast congrArg Nat.cast hlen'.symm) hne
    refine ⟨h1, ?_, h3⟩
    rw [h2, hf]
    omega

/-- The `onload` handler never writes `called`. -/
lemma onloadOf_called (st : JoinState) (name : String) (r : FetchResult) :
    (onloadOf st name r).called = st.called := by
  unfold onloadOf fire
  dsimp only
  split <;> rfl

/-- Folding any sequence of `onload` callbacks never writes `called`. -/
lemma foldl_onload_called (cs : List (String × FetchResult)) :
    ∀ st : JoinState,
      (cs.foldl (fun s c => onloadOf s c.1 c.2) st).called = st.called := by
  induction cs with
  | nil => intro st; rfl
  | cons c rest ih =>
    intro st
    rw [List.foldl_cons, ih, onloadOf_called]

/-- The synchronous `readScripts` pass never writes `called`. -/
lemma readScriptsRun_called (scripts : List ScriptElem) (config : Option ScriptElem) :
    (readScriptsRun scripts config).1.called = false := by
  have h := (enumAll_state scripts config).2.2.1
  rw [readScriptsRun_eq]
  dsimp only
  unfold dispatchCheck fire
  split
  · exact h
  · exact h

/-- C1: for every enumeration with R remote and L inline fragments
(configuration fragment counted by its own classification), assuming every
dispatched fetch completes — the completions carry exactly the names of
the queued fetches, in any order — the completion callback is invoked
exactly once, and the program it receives holds exactly R + L fragments. -/
theorem readScripts_callback_once_R_plus_L (scripts : List ScriptElem)
    (config : Option ScriptElem) (completions : List (String × FetchResult))
    (hperm : List.Perm (completions.map Prod.fst)
      ((readScriptsRun scripts config).2.1.map PendingFetch.name)) :
    ∃ prog, (runJoin scripts config completions).calls = [prog] ∧
      prog.length = remoteCount scripts config + inlineCount scripts config := by
  have hlen : completions.length = (readScriptsRun scripts config).2.1.length := by
    have h := hperm.length_eq
    simpa using h
  obtain ⟨h1, h2, -⟩ := runJoin_spec scripts config completions hlen
  exact ⟨_, h1, h2⟩

/-- Witness for C1 on a concrete document: one inline and one remote
source script, no configuration script, the single fetch completing. -/
theorem readScripts_callback_once_R_plus_L_witness :
    (runJoin [⟨none, "", "let x = 1;"⟩, ⟨some "http://h/a.ts", "http://h/a.ts", ""⟩]
      none [("/a.ts", ⟨true, "body"⟩)]).calls.length = 1 := by
  obtain ⟨p, hp, -⟩ := readScripts_callback_once_R_plus_L
    [⟨none, "", "let x = 1;"⟩, ⟨some "http://h/a.ts", "http://h/a.ts", ""⟩]
    none [("/a.ts", ⟨true, "body"⟩)] (by decide)
  rw [hp]
  rfl

/-- C2 (the claimed latch is dead code): the code never assigns
`called = true` — after the completion callback has run the flag still
reads `false`, and re-entering the completion path fires the callback a
second time.  Concretely, after a zero-fragment `readScripts` pass the
callback has run once, `called` is `false`, and running the post-dispatch
check again calls the callback again; in general no execution ever sets
`called`. -/
theorem called_flag_never_set :
    (readScriptsRun [] none).1.calls = [[]] ∧
    (readScriptsRun [] none).1.called = false ∧
    (dispatchCheck (readScriptsRun [] none).1).1.calls = [[], []] ∧
    ∀ (scripts : List ScriptElem) (config : Option ScriptElem)
      (completions : List (String × FetchResult)),
      (runJoin scripts config completions).called = false := by
  refine ⟨rfl, rfl, rfl, ?_⟩
  intro scripts config completions
  unfold runJoin
  rw [foldl_onload_called]
  exact readScriptsRun_called scripts config

/-- C3: the counter reflects the full remote count R at the end of
enumeration, and in the event trace of the synchronous `readScripts` pass
every `n`-increment strictly precedes every fetch dispatch — no fetch is
sent before enumeration of all fragment locations is complete. -/
theorem increments_precede_sends (scripts : List ScriptElem) (config : Option ScriptElem) :
    (enumAll scripts config).1.n = (remoteCount scripts config : Int) ∧
    ∀ i j (hi : i < (readScriptsRun scripts config).2.2.length)
      (hj : j < (readScriptsRun scripts config).2.2.length),
      ((readScriptsRun scripts config).2.2[i]).isIncrement = true →
      ((readScriptsRun scripts config).2.2[j]).isSend = true → i < j := by
  refine ⟨(enumAll_state scripts config).1, ?_⟩
  have htr : (readScriptsRun scripts config).2.2 = (enumAll scripts config).2.2 ++
      ((enumAll scripts config).2.1.map (fun p => JoinEvent.send p.loc) ++
        (dispatchCheck (enumAll scripts config).1).2) := by
    rw [readScriptsRun_eq]
    dsimp only
    rw [List.append_assoc]
  have hnosend := enumAll_events_no_send scripts config
  have hnotinc : ∀ e ∈ (enumAll scripts config).2.1.map (fun p => JoinEvent.send p.loc) ++
      (dispatchCheck (enumAll scripts config).1).2, e.isIncrement = false := by
    intro e he
    rcases List.mem_append.mp he with he | he
    · obtain ⟨p, -, hp⟩ := List.mem_map.mp he
      rw [← hp]
      rfl
    · revert he
      unfold dispatchCheck
      split
      · intro he
        simp only [List.mem_singleton] at he
        rw [he]
        rfl
      · intro he
        simp at he
  intro i j
  rw [htr]
  intro hi hj hinc hsend
  have hiE : i < (enumAll scripts config).2.2.length := by
    by_contra hge
    push_neg at hge
    rw [List.getElem_append_right hge] at hinc
    have hTi : i - (enumAll scripts config).2.2.length <
        ((enumAll scripts config).2.1.map (fun p => JoinEvent.send p.loc) ++
          (dispatchCheck (enumAll scripts config).1).2).length := by
      rw [List.length_append] at hi
      omega
    have hfalse := hnotinc _ (List.getElem_mem hTi)
    rw [hinc] at hfalse
    exact absurd hfalse (by simp)
  have hjE : (enumAll scripts config).2.2.length ≤ j := by
    by_contra hlt
    push_neg at hlt
    rw [List.getElem_append_left hlt] at hsend
    have hfalse := hnosend _ (List.getElem_mem hlt)
    rw [hsend] at hfalse
    exact absurd hfalse (by simp)
  omega

/-- Witness for C3: a document with one remote script has its increment
at trace index 0 and its dispatch at index 1. -/
theorem increments_precede_sends_witness : (0 : Nat) < 1 := by
  have h := (increments_precede_sends [⟨some "http://h/a.ts", "http://h/a.ts", ""⟩]
    none).2 0 1 (by decide) (by decide) (by decide) (by decide)
  exact h

/-- C4: with zero remote fragments the completion callback fires within
the synchronous `readScripts` pass itself (a `callbackFire` event in the
dispatch-pass trace), exactly once, with all L inline fragments, and the
resulting state is literally the all-fetches-resolved run with an empty
completion list. -/
theorem zero_remote_fires_synchronously (scripts : List ScriptElem)
    (config : Option ScriptElem) (hR : remoteCount scripts config = 0) :
    ∃ prog, (readScriptsRun scripts config).1.calls = [prog] ∧
      prog.length = inlineCount scripts config ∧
      JoinEvent.callbackFire prog ∈ (readScriptsRun scripts config).2.2 ∧
      runJoin scripts config [] = (readScriptsRun scripts config).1 := by
  obtain ⟨hn, hf, hcalled, hcalls, hps⟩ := enumAll_state scripts config
  have hfire : dispatchCheck (enumAll scripts config).1 =
      (fire (enumAll scripts config).1,
        [JoinEvent.callbackFire (enumAll scripts config).1.files]) := by
    unfold dispatchCheck
    rw [if_pos ⟨by rw [hn, hR]; rfl, hcalled⟩]
  refine ⟨(enumAll scripts config).1.files, ?_, hf, ?_, rfl⟩
  · rw [readScriptsRun_eq]
    dsimp only
    rw [hfire]
    dsimp only [fire]
    rw [hcalls]
    rfl
  · rw [readScriptsRun_eq]
    dsimp only
    rw [hfire]
    simp

/-- Witness for C4 on a concrete all-inline document. -/
theorem zero_remote_fires_synchronously_witness :
    (readScriptsRun [⟨none, "", "let a = 2;"⟩] none).1.calls.length = 1 := by
  obtain ⟨p, hp, -, -, -⟩ :=
    zero_remote_fires_synchronously [⟨none, "", "let a = 2;"⟩] none (by decide)
  rw [hp]
  rfl

/-- C6: at the coordination layer a failing fetch behaves exactly like a
successful one — the installed handler never reads the transport success
flag, it always appends whatever response text was obtained and decrements
the counter, and the join completes (fires exactly once) whenever every
dispatched fetch completes, whatever the per-fetch outcomes. -/
theorem fetch_failure_not_distinguished :
    (∀ (st : JoinState) (name : String) (ok1 ok2 : Bool) (text : String),
      onloadOf st name ⟨ok1, text⟩ = onloadOf st name ⟨ok2, text⟩) ∧
    (∀ (st : JoinState) (name : String) (r : FetchResult),
      (onloadOf st name r).files = st.files ++ [⟨name, r.responseText⟩] ∧
      (onloadOf st name r).n = st.n - 1) ∧
    (∀ (scripts : List ScriptElem) (config : Option ScriptElem)
      (completions : List (String × FetchResult)),
      completions.length = (readScriptsRun scripts config).2.1.length →
      ∃ prog, (runJoin scripts config completions).calls = [prog]) := by
  refine ⟨fun st name ok1 ok2 text => rfl, ?_, ?_⟩
  · intro st name r
    unfold onloadOf fire
    dsimp only
    constructor <;> split <;> rfl
  · intro scripts config completions hlen
    obtain ⟨h1, -, -⟩ := runJoin_spec scripts config completions hlen
    exact ⟨_, h1⟩

/-- Witness for C6: a remote fetch completing with a failure flag and
error text still completes the join. -/
theorem fetch_failure_not_distinguished_witness :
    (runJoin [⟨some "http://h/a.ts", "http://h/a.ts", ""⟩] none
      [("/a.ts", ⟨false, "404 not found"⟩)]).calls.length = 1 := by
  obtain ⟨p, hp⟩ := fetch_failure_not_distinguished.2.2
    [⟨some "http://h/a.ts", "http://h/a.ts", ""⟩] none
    [("/a.ts", ⟨false, "404 not found"⟩)] rfl
  rw [hp]
  rfl

/-! ## Fragment naming (C5) -/

/-- Counterexample to C5 as stated: the computed name keeps the leading
`/` (it is not the bare final path segment); a location ending in `/`
yields the non-empty name `"/"` rather than any generated placeholder;
and the placeholder scheme that does exist (for an empty location string)
is `script-<ordinal>.ts`, not `fragment-<ordinal>.ts`. -/
theorem fragment_naming_counterexample :
    fragmentName "http://h/a.ts" 0 = "/a.ts" ∧ "/a.ts" ≠ "a.ts" ∧
    fragmentName "http://h/" 1 = "/" ∧ ("/" : String) ≠ "fragment-1.ts" ∧
    ("/" : String) ≠ "script-1.ts" ∧
    fragmentName "" 2 = "script-2.ts" ∧ ("script-2.ts" : String) ≠ "fragment-2.ts" := by
  decide

/-- C5 amended: a remote source fragment's name is the suffix of its
location from the last `/` inclusive (the whole location when no `/`
occurs); the placeholder — spelled `script-<ordinal>.ts` — is used exactly
when the location string is empty; the ordinal is the fragment's index
over all source fragments (inline and remote alike); and the enumeration
trace names fragments accordingly, the configuration fragment always
`tsconfig.json` and never advancing the ordinal. -/
theorem fragment_naming_amended :
    (∀ (s : String) (k : Nat), '/' ∈ s.data →
      ∃ pre post, s.data = pre ++ '/' :: post ∧ '/' ∉ post ∧
        (fragmentName s k).data = '/' :: post) ∧
    (∀ k : Nat, fragmentName "" k = "script-" ++ toString k ++ ".ts") ∧
    (∀ (s : String) (k : Nat), s ≠ "" → '/' ∉ s.data → fragmentName s k = s) ∧
    (∀ (scripts : List ScriptElem) (config : Option ScriptElem),
      (enumAll scripts config).2.2.filterMap JoinEvent.eventName =
        (List.enumFrom 0 scripts).map (fun p => fragmentName p.2.srcProp p.1) ++
          config.toList.map (fun _ => "tsconfig.json")) := by
  refine ⟨?_, ?_, ?_, enumAll_event_names⟩
  · intro s k h
    obtain ⟨pre, post, hdecomp, hnot, hdata⟩ := substringFromLastSlash_decomp s h
    refine ⟨pre, post, hdecomp, hnot, ?_⟩
    unfold fragmentName
    dsimp only
    rw [if_neg, hdata]
    intro hempty
    have hd := congrArg String.data hempty
    rw [hdata] at hd
    exact List.cons_ne_nil _ _ hd
  · intro k
    rfl
  · intro s k hne hnos
    unfold fragmentName
    dsimp only
    rw [substringFromLastSlash_no_slash s hnos, if_neg hne]

/-- Witness for the amended C5: a slash-free non-empty location is used
verbatim as the fragment name. -/
theorem fragment_naming_amended_witness : fragmentName "abc" 4 = "abc" :=
  fragment_naming_amended.2.2.1 "abc" 4 (by decide) (by decide)

/-! ## The response pipeline: helper equations -/

/-- `showOutput` when the diagnostic markup yields no `pre` element:
the non-null assertion leaves `null`, and `appendChild` throws. -/
lemma showOutput_none (cfg : TSCompilerConfiguration)
    (extractPre : String → Option String) (out : RawResponse)
    (hex : extractPre (resultText out) = none) :
    showOutput cfg extractPre out = Except.error () := by
  unfold showOutput
  rw [hex]

/-- `showOutput` on a rejected compile: diagnostic rendered, failure
reported, nothing injected. -/
lemma showOutput_failure (cfg : TSCompilerConfiguration)
    (extractPre : String → Option String) (out : RawResponse) (inner : String)
    (hex : extractPre (resultText out) = some inner) (hsucc : out.success = false) :
    showOutput cfg extractPre out =
      Except.ok [HostEvent.renderDiagnostic inner,
        HostEvent.setErrorEv "Compilation failed.", HostEvent.hideSpinnerEv] := by
  unfold showOutput
  rw [hex, hsucc]
  simp

/-- `showOutput` on an accepted compile: diagnostic rendered, then every
returned file injected, in order. -/
lemma showOutput_success (cfg : TSCompilerConfiguration)
    (extractPre : String → Option String) (out : RawResponse) (inner : String)
    (hex : extractPre (resultText out) = some inner) (hsucc : out.success = true) :
    showOutput cfg extractPre out =
      Except.ok ([HostEvent.renderDiagnostic inner, HostEvent.setStatusHidden,
        HostEvent.hideSpinnerEv] ++
        out.files.map (fun f => HostEvent.injectScript (addScriptType cfg f) f.content)) := by
  unfold showOutput
  rw [hex, hsucc]
  simp

/-- `onload` handler on an envelope without the `error` flag. -/
lemma onloadHandler_no_error (cfg : TSCompilerConfiguration)
    (extractPre : String → Option String) (out : RawResponse)
    (herr : out.error = false) :
    onloadHandler cfg extractPre (some out) =
      match showOutput cfg extractPre out with
      | Except.ok evs => evs
      | Except.error _ =>
        [HostEvent.setErrorEv "A server error occurred.", HostEvent.hideSpinnerEv] := by
  unfold onloadHandler
  dsimp only
  rw [herr]
  simp

/-- `onload` handler on an envelope carrying `error: true`: the fault is
reported first, then `showOutput` still runs on the same envelope. -/
lemma onloadHandler_with_error_flag (cfg : TSCompilerConfiguration)
    (extractPre : String → Option String) (out : RawResponse)
    (herr : out.error = true) :
    onloadHandler cfg extractPre (some out) =
      [HostEvent.setErrorEv ("A server error occurred: <br/> " ++ out.reason),
        HostEvent.hideSpinnerEv] ++
      match showOutput cfg extractPre out with
      | Except.ok evs => evs
      | Except.error _ =>
        [HostEvent.setErrorEv "A server error occurred.", HostEvent.hideSpinnerEv] := by
  unfold onloadHandler
  dsimp only
  rw [herr]
  cases hshow : showOutput cfg extractPre out <;> simp [hshow]

/-- `injectedOf` distributes over concatenation. -/
lemma injectedOf_append (a b : List HostEvent) :
    injectedOf (a ++ b) = injectedOf a ++ injectedOf b := by
  unfold injectedOf
  exact List.filterMap_append a b _

/-- The injection loop of `showOutput` injects exactly the response
files, in order. -/
lemma injectedOf_inject_map (cfg : TSCompilerConfiguration) (l : List TSFile) :
    injectedOf (l.map (fun f => HostEvent.injectScript (addScriptType cfg f) f.content)) =
      l.map (fun f => (addScriptType cfg f, f.content)) := by
  induction l with
  | nil => rfl
  | cons f rest ih =>
    show (addScriptType cfg f, f.content) ::
        injectedOf (rest.map (fun f => HostEvent.injectScript (addScriptType cfg f) f.content)) =
      (addScriptType cfg f, f.content) :: rest.map (fun f => (addScriptType cfg f, f.content))
    rw [ih]

/-- On an envelope that is accepted end to end (no error flag, extractable
diagnostic, `success: true`), the injected artifacts are exactly the
response files, in order, typed by `addScript`. -/
lemma injected_on_accepted (cfg : TSCompilerConfiguration)
    (extractPre : String → Option String) (out : RawResponse) (inner : String)
    (herr : out.error = false) (hsucc : out.success = true)
    (hex : extractPre (resultText out) = some inner) :
    injectedOf (onloadHandler cfg extractPre (some out)) =
      out.files.map (fun f => (addScriptType cfg f, f.content)) := by
  rw [onloadHandler_no_error cfg extractPre out herr,
    showOutput_success cfg extractPre out inner hex hsucc]
  dsimp only
  rw [injectedOf_append, injectedOf_inject_map]
  rfl

/-! ## Claims about the response pipeline -/

/-- Counterexample to C7 as stated: an envelope that parses and carries
`error: true` can still reach artifact injection, because the handler
calls `showOutput` on the same envelope after reporting the fault — here
an envelope that additionally carries `success: true`, a diagnostic with
a `pre` element, and one file gets that file injected. -/
theorem serverfault_counterexample :
    injectedOf (onloadHandler ⟨"srv", "a", "b", "jsmode", "othermode"⟩
      (fun s => if s = "<pre>d</pre>" then some "d" else none)
      (some ⟨true, "overloaded", true, some "<pre>d</pre>", [⟨"a.js", "x"⟩]⟩)) ≠ [] := by
  decide

/-- C7 amended: on every parsed envelope carrying `error: true` the client
reports a fatal error whose message contains the carried `reason`
verbatim; zero artifacts are injected whenever the envelope does not also
present as a successful compile payload — in particular when its
diagnostic has no extractable `pre` element (e.g. the bare
`{error: true, reason: "overloaded"}` response) or when `success` is
false. -/
theorem serverfault_amended (cfg : TSCompilerConfiguration)
    (extractPre : String → Option String) (out : RawResponse)
    (herr : out.error = true) :
    (∃ msg a b, HostEvent.setErrorEv msg ∈ onloadHandler cfg extractPre (some out) ∧
      msg = a ++ out.reason ++ b) ∧
    (extractPre (resultText out) = none →
      injectedOf (onloadHandler cfg extractPre (some out)) = []) ∧
    (out.success = false →
      injectedOf (onloadHandler cfg extractPre (some out)) = []) := by
  refine ⟨⟨"A server error occurred: <br/> " ++ out.reason,
      "A server error occurred: <br/> ", "", ?_, ?_⟩, ?_, ?_⟩
  · rw [onloadHandler_with_error_flag cfg extractPre out herr]
    exact List.mem_append_left _ (List.mem_cons_self _ _)
  · rw [String.append_empty]
  · intro hex
    rw [onloadHandler_with_error_flag cfg extractPre out herr,
      showOutput_none cfg extractPre out hex]
    rfl
  · intro hsucc
    cases hex : extractPre (resultText out) with
    | none =>
      rw [onloadHandler_with_error_flag cfg extractPre out herr,
        showOutput_none cfg extractPre out hex]
      rfl
    | some inner =>
      rw [onloadHandler_with_error_flag cfg extractPre out herr,
        showOutput_failure cfg extractPre out inner hex hsucc]
      rfl

/-- Witness for the amended C7: the spec's own scenario
`{error: true, reason: "overloaded"}` (no diagnostic, no files) injects
nothing. -/
theorem serverfault_amended_witness :
    injectedOf (onloadHandler ⟨"s", "a", "b", "j", "o"⟩ (fun _ => none)
      (some ⟨true, "overloaded", false, none, []⟩)) = [] :=
  (serverfault_amended ⟨"s", "a", "b", "j", "o"⟩ (fun _ => none)
    ⟨true, "overloaded", false, none, []⟩ rfl).2.1 rfl

/-- C8: on a parsed CompileSuccess/CompileFailure envelope (no `error`
flag) whose diagnostic markup yields a `pre` element, the diagnostic is
rendered; if `success` is false the pipeline stops with zero artifacts
injected and reports the failure; only if `success` is true are the
returned files handed to injection. -/
theorem compile_envelope_pipeline (cfg : TSCompilerConfiguration)
    (extractPre : String → Option String) (out : RawResponse) (inner : String)
    (herr : out.error = false) (hex : extractPre (resultText out) = some inner) :
    HostEvent.renderDiagnostic inner ∈ onloadHandler cfg extractPre (some out) ∧
    (out.success = false →
      injectedOf (onloadHandler cfg extractPre (some out)) = [] ∧
      HostEvent.setErrorEv "Compilation failed." ∈ onloadHandler cfg extractPre (some out)) ∧
    (out.success = true →
      injectedOf (onloadHandler cfg extractPre (some out)) =
        out.files.map (fun f => (addScriptType cfg f, f.content))) := by
  rw [onloadHandler_no_error cfg extractPre out herr]
  cases hsucc : out.success with
  | false =>
    rw [showOutput_failure cfg extractPre out inner hex hsucc]
    refine ⟨by simp, fun _ => ⟨rfl, by simp⟩, fun h => absurd h (by simp)⟩
  | true =>
    rw [showOutput_success cfg extractPre out inner hex hsucc]
    refine ⟨by simp, fun h => absurd h (by simp), fun _ => ?_⟩
    dsimp only
    rw [injectedOf_append, injectedOf_inject_map]
    rfl

/-- Witness for C8: the spec's CompileFailure scenario
`{success: false, result: "<pre>error</pre>", files: []}` renders and
injects nothing. -/
theorem compile_envelope_pipeline_witness :
    injectedOf (onloadHandler ⟨"s", "a", "b", "j", "o"⟩
      (fun s => if s = "<pre>error</pre>" then some "error" else none)
      (some ⟨false, "", false, some "<pre>error</pre>", []⟩)) = [] := by
  have h := compile_envelope_pipeline ⟨"s", "a", "b", "j", "o"⟩
    (fun s => if s = "<pre>error</pre>" then some "error" else none)
    ⟨false, "", false, some "<pre>error</pre>", []⟩ "error" rfl (by decide)
  exact (h.2.1 rfl).1

/-- C10: when the parsed envelope's diagnostic markup contains no `pre`
element, the extraction step throws, the shared catch — the same one that
covers unparsable envelopes — reports the generic server-error message,
and zero artifacts are injected, regardless of `success` and `files`;
for an envelope without the `error` flag the resulting behaviour is
exactly that of a malformed envelope. -/
theorem missing_pre_generic_error (cfg : TSCompilerConfiguration)
    (extractPre : String → Option String) (out : RawResponse)
    (hex : extractPre (resultText out) = none) :
    HostEvent.setErrorEv "A server error occurred." ∈
      onloadHandler cfg extractPre (some out) ∧
    injectedOf (onloadHandler cfg extractPre (some out)) = [] ∧
    (out.error = false →
      onloadHandler cfg extractPre (some out) = onloadHandler cfg extractPre none) := by
  cases herr : out.error with
  | false =>
    rw [onloadHandler_no_error cfg extractPre out herr,
      showOutput_none cfg extractPre out hex]
    exact ⟨by simp, rfl, fun _ => rfl⟩
  | true =>
    rw [onloadHandler_with_error_flag cfg extractPre out herr,
      showOutput_none cfg extractPre out hex]
    refine ⟨by simp, rfl, fun h => absurd h (by simp [herr])⟩

/-- Witness for C10: a `success: true` envelope with one file but no
`pre` in its diagnostic markup injects nothing. -/
theorem missing_pre_generic_error_witness :
    injectedOf (onloadHandler ⟨"s", "a", "b", "j", "o"⟩ (fun _ => none)
      (some ⟨false, "", true, some "<div>hi</div>", [⟨"a.js", "x"⟩]⟩)) = [] :=
  (missing_pre_generic_error ⟨"s", "a", "b", "j", "o"⟩ (fun _ => none)
    ⟨false, "", true, some "<div>hi</div>", [⟨"a.js", "x"⟩]⟩ rfl).2.1

/-- Counterexample to C9 as stated: the artifact named `"ab"` does not end
in `.js`, yet the source's `lastIndexOf(".js") === length - 3` test puts
it in the directly-runnable class, because both sides evaluate to `-1`. -/
theorem artifact_mode_counterexample :
    addScriptType ⟨"s", "a", "b", "jsmode", "othermode"⟩ ⟨"ab", "x"⟩ = "jsmode" ∧
    ¬ endsWithDotJs "ab" := by
  decide

/-- C9 amended: on an accepted compile every returned artifact is injected
exactly once, strictly in response order, and an artifact receives the
directly-runnable mode precisely when its name ends in `.js` **or** its
name is exactly two characters long (the `-1 === -1` quirk of the
`lastIndexOf` comparison); every other artifact receives the secondary
mode. -/
theorem artifact_injection_amended (cfg : TSCompilerConfiguration)
    (extractPre : String → Option String) (out : RawResponse) (inner : String)
    (herr : out.error = false) (hsucc : out.success = true)
    (hex : extractPre (resultText out) = some inner) :
    injectedOf (onloadHandler cfg extractPre (some out)) =
      out.files.map (fun f => (addScriptType cfg f, f.content)) ∧
    ∀ f : TSFile, addScriptType cfg f =
      if endsWithDotJs f.name ∨ f.name.data.length = 2 then cfg.outputJsType
      else cfg.outputOtherType := by
  refine ⟨injected_on_accepted cfg extractPre out inner herr hsucc hex, ?_⟩
  intro f
  unfold addScriptType
  exact if_congr (addScript_check_iff f.name) rfl rfl

/-- Witness for the amended C9: a response carrying `b.js` then `a.js`
injects both, in that order, with the runnable mode. -/
theorem artifact_injection_amended_witness :
    injectedOf (onloadHandler ⟨"s", "a", "b", "jsmode", "othermode"⟩
      (fun s => if s = "<pre>ok</pre>" then some "ok" else none)
      (some ⟨false, "", true, some "<pre>ok</pre>",
        [⟨"b.js", "yyy"⟩, ⟨"a.js", "xxx"⟩]⟩)) =
      [("jsmode", "yyy"), ("jsmode", "xxx")] := by
  have h := artifact_injection_amended ⟨"s", "a", "b", "jsmode", "othermode"⟩
    (fun s => if s = "<pre>ok</pre>" then some "ok" else none)
    ⟨false, "", true, some "<pre>ok</pre>", [⟨"b.js", "yyy"⟩, ⟨"a.js", "xxx"⟩]⟩
    "ok" rfl rfl (by decide)
  rw [h.1]
  decide
